import Mathlib

/-!
Verification development for the glue HDF5 extraction core
(`glue/core/data_factories/hdf5.py`) and the visual-attributes record
(`glue/core/visual.py`).  The Python functions are shallowly embedded as
executable Lean definitions; theorems below settle the specification's
claims against them.
-/

namespace Glue

/-- Element kind of an HDF5 dataset, mirroring `dtype.kind`:
`f` (float), `i` (integer), `V` (structured/compound), or anything else. -/
inductive DKind where
  | float
  | integer
  | structured
  | other
deriving DecidableEq

/-- An HDF5 dataset leaf: its element kind, its shape (`value.shape`), its
materialized array (`value`, abstracted to a flat list of integers), and the
tabular view `(column name, column values, optional unit)` that the external
table reader (`Table.read`) yields for structured leaves. -/
structure DSet where
  kind : DKind
  shape : List Nat
  value : List Int
  columns : List (String × List Int × Option String)
deriving DecidableEq

/-- An HDF5 hierarchy node: a dataset leaf or a group of named children.
The inductive structure makes hierarchies trees (acyclic) by construction. -/
inductive HNode where
  | dataset (d : DSet)
  | group (children : List (String × HNode))

/-- Eligibility test of `extract_hdf5_datasets`:
`handle[group].dtype.kind in ('f', 'i', 'V')`. -/
def eligibleKind : DKind → Bool
  | .float => true
  | .integer => true
  | .structured => true
  | .other => false

/-- Embedding of `extract_hdf5_datasets` (hdf5.py lines 12-30): recursively
walk a file or group handle and return the mapping from full path to dataset
handle, keeping only leaves whose `dtype.kind` is in `('f','i','V')` and
descending into sub-groups.  In h5py, `handle[group].name` is the absolute
path, which the `pfx` argument reconstructs (the root call uses `pfx = ""`).
The returned association list is in traversal order with sub-group results
spliced in at the sub-group's position, matching the insertion order of the
Python dict. -/
def extract_hdf5_datasets : HNode → String → List (String × DSet)
  | .dataset _, _ => []
  | .group [], _ => []
  | .group ((name, .group cs) :: rest), pfx =>
      extract_hdf5_datasets (.group cs) (pfx ++ "/" ++ name)
        ++ extract_hdf5_datasets (.group rest) pfx
  | .group ((name, .dataset d) :: rest), pfx =>
      (if eligibleKind d.kind then [(pfx ++ "/" ++ name, d)] else [])
        ++ extract_hdf5_datasets (.group rest) pfx

/-- Specification-side collector: every leaf of the hierarchy with its full
path, regardless of element kind (groups contribute no entry themselves). -/
def allLeaves : HNode → String → List (String × DSet)
  | .dataset _, _ => []
  | .group [], _ => []
  | .group ((name, .group cs) :: rest), pfx =>
      allLeaves (.group cs) (pfx ++ "/" ++ name) ++ allLeaves (.group rest) pfx
  | .group ((name, .dataset d) :: rest), pfx =>
      [(pfx ++ "/" ++ name, d)] ++ allLeaves (.group rest) pfx

theorem extract_eq_filter_allLeaves (t : HNode) (pfx : String) :
    extract_hdf5_datasets t pfx
      = (allLeaves t pfx).filter (fun kd => eligibleKind kd.2.kind) := by
  induction t, pfx using extract_hdf5_datasets.induct with
  | case1 d pfx => simp [extract_hdf5_datasets, allLeaves]
  | case2 pfx => simp [extract_hdf5_datasets, allLeaves]
  | case3 name cs rest pfx ih1 ih2 =>
      simp [extract_hdf5_datasets, allLeaves, ih1, ih2]
  | case4 name d rest pfx ih =>
      simp only [extract_hdf5_datasets, allLeaves, ih, List.filter_append]
      by_cases h : eligibleKind d.kind = true <;> simp [h]

/-- The `use_datasets` argument of `extract_data_hdf5`: either the `'all'`
sentinel or an explicit list of dataset paths. -/
inductive UseDatasets where
  | all
  | paths (ps : List String)

/-- Embedding of `extract_data_hdf5` (hdf5.py lines 33-74).  The function
collects all datasets, drops the structured ones (`dtype.fields is not
None`, i.e. kind `V`), takes the first remaining dataset's shape as the
reference shape (`datasets[list(datasets.keys())[0]].value.shape` — an
IndexError when nothing remains), raises
`Exception("Datasets are not all the same dimensions")` when any remaining
dataset has a different shape, and otherwise returns the path → materialized
array mapping.  Note that the body never reads `use_datasets`, exactly as in
the source. -/
def extract_data_hdf5 (tree : HNode) (use_datasets : UseDatasets) :
    Except String (List (String × List Int)) :=
  let ds0 := extract_hdf5_datasets tree ""
  let datasets := ds0.filter (fun kd => !decide (kd.2.kind = DKind.structured))
  match datasets with
  | [] => Except.error "list index out of range"
  | d :: rest =>
      let reference_shape := d.2.shape
      if (d :: rest).all (fun kd => decide (kd.2.shape = reference_shape))
      then Except.ok ((d :: rest).map (fun kd => (kd.1, kd.2.value)))
      else Except.error "Datasets are not all the same dimensions"

/-- Python dict lookup on an association list (one entry per key). -/
def dictGet {α β : Type} [DecidableEq α] : List (α × β) → α → Option β
  | [], _ => none
  | (k, v) :: rest, a => if k = a then some v else dictGet rest a

/-- Python dict assignment on an association list: update the value in place
when the key is present, append a new entry otherwise (insertion order of an
OrderedDict / Python 3.7+ dict). -/
def dictSet {α β : Type} [DecidableEq α] : List (α × β) → α → β → List (α × β)
  | [], a, b => [(a, b)]
  | (k, v) :: rest, a, b =>
      if k = a then (k, b) :: rest else (k, v) :: dictSet rest a b

/-- Modelled from the spec: a Component is one named column/array of values
plus optional unit metadata (`glue.core.data.Component` is outside the
extracted sources). -/
structure Component where
  label : String
  values : List Int
  units : Option String
deriving DecidableEq

/-- Modelled from the spec: an Output Record (`glue.core.data.Data`, outside
the extracted sources) holds a label and an insertion-ordered collection of
Components; `add_component` appends. -/
structure Data where
  label : String
  components : List Component
deriving DecidableEq

/-- Default record used to totalize list indexing; never reached on the
well-formed states the reader produces. -/
def dataDefault : Data := ⟨"", []⟩

/-- Mutable `Data` objects are represented by indices into a store of
records; `data.add_component(...)` becomes an update of the store at the
object's index. -/
def addComponentAt : List Data → Nat → Component → List Data
  | [], _, _ => []
  | r :: rs, 0, c => { r with components := r.components ++ [c] } :: rs
  | r :: rs, n + 1, c => r :: addComponentAt rs n c

/-- The loop state of `hdf5_reader`: the store of all `Data` objects created
so far, plus the two dicts `data_by_shape` (shape → record) and `groups`
(label → record), with records referred to by store index. -/
structure ReaderState where
  recs : List Data
  data_by_shape : List (List Nat × Nat)
  groups : List (String × Nat)

/-- The label `'{0}[{1}]'.format(label_base, key)` given to a record created
for the dataset at path `key`. -/
def leafLabel (label_base key : String) : String :=
  label_base ++ "[" ++ key ++ "]"

/-- Test `datasets[key].dtype.kind in ('f', 'i')` of the reader loop. -/
def isPlain (d : DSet) : Bool :=
  match d.kind with
  | .float => true
  | .integer => true
  | _ => false

/-- Embedding of one iteration of the `for key in datasets` loop of
`hdf5_reader` (hdf5.py lines 114-137).  Plain (float/integer) leaves either
merge into the record registered for their shape (when `auto_merge` holds
and the shape was seen) or create a fresh record, register it under the
shape and under its label; in both cases a component holding the leaf's
array is added under the label `key` (the full path).  Structured leaves are
read as tables and yield a fresh record with one component per column. -/
def processLeaf (label_base : String) (auto_merge : Bool) (st : ReaderState)
    (key : String) (d : DSet) : ReaderState :=
  let label := leafLabel label_base key
  if isPlain d then
    match (if auto_merge then dictGet st.data_by_shape d.shape else none) with
    | some i =>
        { st with recs := addComponentAt st.recs i ⟨key, d.value, none⟩ }
    | none =>
        let i := st.recs.length
        { recs := addComponentAt (st.recs ++ [⟨label, []⟩]) i ⟨key, d.value, none⟩
          data_by_shape := dictSet st.data_by_shape d.shape i
          groups := dictSet st.groups label i }
  else
    { st with
      recs := st.recs ++
        [⟨label, d.columns.map (fun c => ⟨c.1, c.2.1, c.2.2⟩)⟩]
      groups := dictSet st.groups label st.recs.length }

/-- The whole `for key in datasets` loop of `hdf5_reader`. -/
def processDatasets (label_base : String) (auto_merge : Bool)
    (st : ReaderState) : List (String × DSet) → ReaderState
  | [] => st
  | (k, d) :: rest =>
      processDatasets label_base auto_merge
        (processLeaf label_base auto_merge st k d) rest

/-- Embedding of `hdf5_reader` (hdf5.py lines 84-142) from the collected
datasets mapping onward: run the loop from empty state and return
`[groups[idx] for idx in groups]`, the records in `groups` insertion order.
File opening and the derivation of `label_base` from the filename are I/O
and are represented by the `datasets` and `label_base` arguments. -/
def hdf5_reader (label_base : String) (auto_merge : Bool)
    (datasets : List (String × DSet)) : List Data :=
  let st := processDatasets label_base auto_merge ⟨[], [], []⟩ datasets
  st.groups.map (fun g => st.recs.getD g.2 dataDefault)

/-- End-to-end reader on a hierarchy: `hdf5_reader` applied to the datasets
collected by `extract_hdf5_datasets`. -/
def hdf5_reader_tree (label_base : String) (auto_merge : Bool)
    (tree : HNode) : List Data :=
  hdf5_reader label_base auto_merge (extract_hdf5_datasets tree "")

/-- Specification-side description of which traversed leaves create a new
Output Record, carrying the set `seen` of shapes already registered: a plain
leaf merges (creates nothing) exactly when `auto_merge` holds and its shape
was already registered, and otherwise creates a record and registers its
shape; a structured leaf always creates a record.  The list of creators in
traversal order is the spec's "first-creation order". -/
def creators (auto_merge : Bool) :
    List (List Nat) → List (String × DSet) → List (String × DSet)
  | _, [] => []
  | seen, (k, d) :: rest =>
      if isPlain d then
        if auto_merge = true ∧ d.shape ∈ seen then
          creators auto_merge seen rest
        else
          (k, d) :: creators auto_merge (d.shape :: seen) rest
      else
        (k, d) :: creators auto_merge seen rest

section DictLemmas

variable {α β : Type} [DecidableEq α]

theorem dictGet_dictSet_self (l : List (α × β)) (a : α) (b : β) :
    dictGet (dictSet l a b) a = some b := by
  induction l with
  | nil => simp [dictGet, dictSet]
  | cons kv rest ih =>
      obtain ⟨k, v⟩ := kv
      by_cases h : k = a <;> simp [dictGet, dictSet, h, ih]

theorem dictGet_dictSet_ne (l : List (α × β)) {a a' : α} (b : β)
    (h : a ≠ a') : dictGet (dictSet l a b) a' = dictGet l a' := by
  induction l with
  | nil => simp [dictGet, dictSet, h]
  | cons kv rest ih =>
      obtain ⟨k, v⟩ := kv
      by_cases hk : k = a
      · subst hk
        simp [dictGet, dictSet, h]
      · by_cases hk' : k = a'
        · subst hk'
          simp [dictGet, dictSet, hk]
        · simp [dictGet, dictSet, hk, hk', ih]

theorem dictGet_isSome_iff (l : List (α × β)) (a : α) :
    (dictGet l a).isSome = true ↔ a ∈ l.map Prod.fst := by
  induction l with
  | nil => simp [dictGet]
  | cons kv rest ih =>
      obtain ⟨k, v⟩ := kv
      by_cases h : k = a
      · subst h
        simp [dictGet]
      · simp only [dictGet, if_neg h, List.map_cons, List.mem_cons, ih]
        constructor
        · exact Or.inr
        · rintro (rfl | hm)
          · exact absurd rfl h
          · exact hm

theorem dictSet_eq_append (l : List (α × β)) {a : α} (b : β)
    (h : a ∉ l.map Prod.fst) : dictSet l a b = l ++ [(a, b)] := by
  induction l with
  | nil => simp [dictSet]
  | cons kv rest ih =>
      obtain ⟨k, v⟩ := kv
      simp only [List.map_cons, List.mem_cons] at h
      push_neg at h
      simp [dictSet, Ne.symm h.1, ih h.2]

end DictLemmas

theorem length_addComponentAt (rs : List Data) (i : Nat) (c : Component) :
    (addComponentAt rs i c).length = rs.length := by
  induction rs generalizing i with
  | nil => simp [addComponentAt]
  | cons r rest ih =>
      cases i with
      | zero => simp [addComponentAt]
      | succ n => simp [addComponentAt, ih]

theorem map_label_addComponentAt (rs : List Data) (i : Nat) (c : Component) :
    (addComponentAt rs i c).map Data.label = rs.map Data.label := by
  induction rs generalizing i with
  | nil => simp [addComponentAt]
  | cons r rest ih =>
      cases i with
      | zero => simp [addComponentAt]
      | succ n => simp [addComponentAt, ih]

theorem addComponentAt_concat (rs : List Data) (r : Data) (c : Component) :
    addComponentAt (rs ++ [r]) rs.length c
      = rs ++ [⟨r.label, r.components ++ [c]⟩] := by
  induction rs with
  | nil => simp [addComponentAt]
  | cons r0 rest ih => simp [addComponentAt, ih]

theorem mem_addComponentAt (rs : List Data) (i : Nat) (c : Component)
    {r' : Data} (h : r' ∈ addComponentAt rs i c) {x : Component}
    (hx : x ∈ r'.components) :
    (∃ r ∈ rs, x ∈ r.components) ∨ x = c := by
  induction rs generalizing i with
  | nil => simp [addComponentAt] at h
  | cons r0 rest ih =>
      cases i with
      | zero =>
          simp only [addComponentAt, List.mem_cons] at h
          rcases h with h | h
          · subst h
            simp only [List.mem_append, List.mem_singleton] at hx
            rcases hx with hx | hx
            · exact Or.inl ⟨r0, by simp, hx⟩
            · exact Or.inr hx
          · exact Or.inl ⟨r', by simp [h], hx⟩
      | succ n =>
          simp only [addComponentAt, List.mem_cons] at h
          rcases h with h | h
          · exact Or.inl ⟨r', by simp [h], hx⟩
          · rcases ih n h with ⟨r, hr, hxr⟩ | hc
            · exact Or.inl ⟨r, by simp [hr], hxr⟩
            · exact Or.inr hc

theorem getD_mem_or_default (l : List Data) (i : Nat) :
    l.getD i dataDefault ∈ l ∨ l.getD i dataDefault = dataDefault := by
  induction l generalizing i with
  | nil => simp
  | cons a rest ih =>
      cases i with
      | zero => simp
      | succ n =>
          rw [List.getD_cons_succ]
          rcases ih n with h | h
          · exact Or.inl (List.mem_cons_of_mem a h)
          · exact Or.inr h

theorem getD_range_self (l : List Data) :
    (List.range l.length).map (fun i => l.getD i dataDefault) = l := by
  induction l with
  | nil => simp
  | cons a rest ih =>
      rw [List.length_cons, List.range_succ_eq_map]
      simp only [List.map_cons, List.map_map]
      simp only [List.getD_cons_zero, List.cons.injEq, true_and]
      calc (List.range rest.length).map
            ((fun i => (a :: rest).getD i dataDefault) ∘ Nat.succ)
          = (List.range rest.length).map (fun i => rest.getD i dataDefault) := by
            apply List.map_congr_left
            intro i _
            simp
        _ = rest := ih

/-- Well-formedness of a reader state: `groups` holds, in order, exactly one
entry per created record, with store indices 0, 1, 2, ... . -/
def ReaderState.wf (st : ReaderState) : Prop :=
  st.groups.map Prod.snd = List.range st.recs.length

theorem output_eq_recs {st : ReaderState} (h : st.wf) :
    st.groups.map (fun g => st.recs.getD g.2 dataDefault) = st.recs := by
  have h1 : st.groups.map (fun g => st.recs.getD g.2 dataDefault)
      = (st.groups.map Prod.snd).map (fun i => st.recs.getD i dataDefault) := by
    rw [List.map_map]
    rfl
  rw [h1, h, getD_range_self]

/-- Invariant transported through the loop: `data_by_shape` has an entry for
a shape exactly when that shape is in `seen`, and then the labels of the
records in the store after the loop are the initial ones followed by the
labels of the creating leaves in traversal order. -/
theorem processDatasets_recs_labels (lb : String) (am : Bool) :
    ∀ (ds : List (String × DSet)) (st : ReaderState) (seen : List (List Nat)),
      (∀ s : List Nat, (dictGet st.data_by_shape s).isSome = true ↔ s ∈ seen) →
      (processDatasets lb am st ds).recs.map Data.label
        = st.recs.map Data.label
            ++ (creators am seen ds).map (fun kd => leafLabel lb kd.1) := by
  intro ds
  induction ds with
  | nil =>
      intro st seen _
      simp [processDatasets, creators]
  | cons kd rest ih =>
      intro st seen hseen
      obtain ⟨k, d⟩ := kd
      rw [processDatasets]
      by_cases hp : isPlain d = true
      · rcases hm : (if am then dictGet st.data_by_shape d.shape else none)
            with _ | i
        · -- create branch
          have hcond : ¬(am = true ∧ d.shape ∈ seen) := by
            rintro ⟨ha, hs⟩
            rw [ha, if_pos rfl] at hm
            rw [← hseen d.shape, hm] at hs
            simp at hs
          have hstep : processLeaf lb am st k d =
              { recs := addComponentAt (st.recs ++ [⟨leafLabel lb k, []⟩])
                  st.recs.length ⟨k, d.value, none⟩
                data_by_shape := dictSet st.data_by_shape d.shape st.recs.length
                groups := dictSet st.groups (leafLabel lb k) st.recs.length } := by
            rw [processLeaf, if_pos hp, hm]
          rw [hstep]
          have hseen' : ∀ s : List Nat,
              (dictGet (dictSet st.data_by_shape d.shape st.recs.length) s).isSome
                = true ↔ s ∈ d.shape :: seen := by
            intro s
            by_cases hs : d.shape = s
            · subst hs
              simp [dictGet_dictSet_self]
            · rw [dictGet_dictSet_ne _ _ hs, hseen s]
              simp [List.mem_cons, Ne.symm hs]
          rw [ih _ (d.shape :: seen) hseen']
          rw [creators, if_pos hp, if_neg hcond]
          simp [map_label_addComponentAt, addComponentAt_concat]
        · -- merge branch
          have hcond : am = true ∧ d.shape ∈ seen := by
            by_cases ha : am = true
            · refine ⟨ha, ?_⟩
              rw [ha, if_pos rfl] at hm
              rw [← hseen d.shape, hm]
              rfl
            · rw [if_neg ha] at hm
              exact absurd hm (by simp)
          have hstep : processLeaf lb am st k d =
              { st with recs := addComponentAt st.recs i ⟨k, d.value, none⟩ } := by
            rw [processLeaf, if_pos hp, hm]
          rw [hstep]
          rw [ih _ seen (by simpa using hseen)]
          rw [creators, if_pos hp, if_pos hcond]
          simp [map_label_addComponentAt]
      · -- structured branch
        have hstep : processLeaf lb am st k d =
            { st with
              recs := st.recs ++
                [⟨leafLabel lb k, d.columns.map (fun c => ⟨c.1, c.2.1, c.2.2⟩)⟩]
              groups := dictSet st.groups (leafLabel lb k) st.recs.length } := by
          rw [processLeaf, if_neg (by simpa using hp)]
        rw [hstep]
        rw [ih _ seen (by simpa using hseen)]
        rw [creators, if_neg (by simpa using hp)]
        simp

/-- The loop preserves well-formedness as long as the labels of the
processed leaves are distinct and fresh with respect to the `groups` dict:
every creating leaf then appends a new `groups` entry whose index is the
store length at creation time. -/
theorem processDatasets_wf (lb : String) (am : Bool) :
    ∀ (ds : List (String × DSet)) (st : ReaderState),
      st.wf →
      (∀ kd ∈ ds, leafLabel lb kd.1 ∉ st.groups.map Prod.fst) →
      (ds.map (fun kd => leafLabel lb kd.1)).Nodup →
      (processDatasets lb am st ds).wf := by
  intro ds
  induction ds with
  | nil =>
      intro st hwf _ _
      simpa [processDatasets] using hwf
  | cons kd rest ih =>
      intro st hwf hfresh hnodup
      obtain ⟨k, d⟩ := kd
      rw [processDatasets]
      have hfreshk : leafLabel lb k ∉ st.groups.map Prod.fst :=
        hfresh (k, d) (by simp)
      have hnodup' : (rest.map (fun kd => leafLabel lb kd.1)).Nodup := by
        simpa [List.nodup_cons] using hnodup.of_cons
      have hne : ∀ kd ∈ rest, leafLabel lb kd.1 ≠ leafLabel lb k := by
        intro kd hkd heq
        have : leafLabel lb k ∈ rest.map (fun kd => leafLabel lb kd.1) :=
          List.mem_map.mpr ⟨kd, hkd, heq⟩
        rw [List.map_cons, List.nodup_cons] at hnodup
        exact hnodup.1 this
      by_cases hp : isPlain d = true
      · rcases hm : (if am then dictGet st.data_by_shape d.shape else none)
            with _ | i
        · -- create branch
          have hstep : processLeaf lb am st k d =
              { recs := addComponentAt (st.recs ++ [⟨leafLabel lb k, []⟩])
                  st.recs.length ⟨k, d.value, none⟩
                data_by_shape := dictSet st.data_by_shape d.shape st.recs.length
                groups := dictSet st.groups (leafLabel lb k) st.recs.length } := by
            rw [processLeaf, if_pos hp, hm]
          rw [hstep]
          apply ih
          · show (dictSet st.groups (leafLabel lb k) st.recs.length).map Prod.snd
              = List.range (addComponentAt (st.recs ++ [⟨leafLabel lb k, []⟩])
                  st.recs.length ⟨k, d.value, none⟩).length
            rw [dictSet_eq_append _ _ hfreshk, length_addComponentAt,
              List.length_append, List.map_append]
            rw [show (st.groups.map Prod.snd : List Nat) = List.range st.recs.length
              from hwf]
            simp [List.range_succ]
          · intro kd hkd
            rw [dictSet_eq_append _ _ hfreshk, List.map_append]
            simp only [List.mem_append, List.map_cons, List.map_nil,
              List.mem_singleton, List.mem_cons]
            rintro (hmem | hmem)
            · exact hfresh kd (by simp [hkd]) hmem
            · rcases hmem with hmem | hmem
              · exact hne kd hkd hmem
              · simp at hmem
          · exact hnodup'
        · -- merge branch
          have hstep : processLeaf lb am st k d =
              { st with recs := addComponentAt st.recs i ⟨k, d.value, none⟩ } := by
            rw [processLeaf, if_pos hp, hm]
          rw [hstep]
          apply ih
          · show st.groups.map Prod.snd
              = List.range (addComponentAt st.recs i ⟨k, d.value, none⟩).length
            rw [length_addComponentAt]
            exact hwf
          · intro kd hkd
            exact hfresh kd (by simp [hkd])
          · exact hnodup'
      · -- structured branch
        have hstep : processLeaf lb am st k d =
            { st with
              recs := st.recs ++
                [⟨leafLabel lb k, d.columns.map (fun c => ⟨c.1, c.2.1, c.2.2⟩)⟩]
              groups := dictSet st.groups (leafLabel lb k) st.recs.length } := by
          rw [processLeaf, if_neg (by simpa using hp)]
        rw [hstep]
        apply ih
        · simp only [ReaderState.wf]
          rw [dictSet_eq_append _ _ hfreshk, List.length_append, List.map_append]
          rw [show (st.groups.map Prod.snd : List Nat) = List.range st.recs.length
            from hwf]
          simp [List.range_succ]
        · intro kd hkd
          rw [dictSet_eq_append _ _ hfreshk, List.map_append]
          simp only [List.mem_append, List.map_cons, List.map_nil,
            List.mem_singleton, List.mem_cons]
          rintro (hmem | hmem)
          · exact hfresh kd (by simp [hkd]) hmem
          · rcases hmem with hmem | hmem
            · exact hne kd hkd hmem
            · simp at hmem
        · exact hnodup'

theorem leafLabel_inj (lb : String) : Function.Injective (leafLabel lb) := by
  intro k k' h
  have hd : (leafLabel lb k).data = (leafLabel lb k').data := by rw [h]
  have hsplit : ∀ s : String, (leafLabel lb s).data
      = lb.data ++ ('[' :: (s.data ++ [']'])) := by
    intro s
    show (lb ++ "[" ++ s ++ "]").data = _
    have happ : ∀ a b : String, (a ++ b).data = a.data ++ b.data := by
      intro a b
      cases a
      cases b
      rfl
    rw [happ, happ, happ]
    simp
  rw [hsplit, hsplit] at hd
  have h1 : '[' :: (k.data ++ [']']) = '[' :: (k'.data ++ [']']) :=
    List.append_cancel_left hd
  have h2 : k.data ++ [']'] = k'.data ++ [']'] := by
    injection h1
  have h3 : k.data = k'.data := List.append_cancel_right h2
  cases k
  cases k'
  exact congrArg String.mk h3

theorem labels_nodup_of_keys_nodup (lb : String) {ds : List (String × DSet)}
    (h : (ds.map Prod.fst).Nodup) :
    (ds.map (fun kd => leafLabel lb kd.1)).Nodup := by
  have : ds.map (fun kd => leafLabel lb kd.1)
      = (ds.map Prod.fst).map (leafLabel lb) := by
    rw [List.map_map]
    rfl
  rw [this]
  exact h.map (leafLabel_inj lb)

/-- Central characterization: on a dataset mapping with distinct paths, the
reader returns exactly one record per creating leaf, labeled with that
leaf's label, in traversal (first-creation) order. -/
theorem reader_labels (lb : String) (am : Bool) (ds : List (String × DSet))
    (h : (ds.map Prod.fst).Nodup) :
    (hdf5_reader lb am ds).map Data.label
      = (creators am [] ds).map (fun kd => leafLabel lb kd.1) := by
  have hwf : (processDatasets lb am ⟨[], [], []⟩ ds).wf := by
    apply processDatasets_wf
    · show ([] : List (String × Nat)).map Prod.snd = List.range ([] : List Data).length
      simp
    · intro kd _
      simp
    · exact labels_nodup_of_keys_nodup lb h
  show ((processDatasets lb am ⟨[], [], []⟩ ds).groups.map
      (fun g => (processDatasets lb am ⟨[], [], []⟩ ds).recs.getD g.2
        dataDefault)).map Data.label = _
  rw [output_eq_recs hwf]
  rw [processDatasets_recs_labels lb am ds ⟨[], [], []⟩ []
    (by intro s; simp [dictGet])]
  simp

theorem creators_false (seen : List (List Nat)) (ds : List (String × DSet)) :
    creators false seen ds = ds := by
  induction ds generalizing seen with
  | nil => simp [creators]
  | cons kd rest ih =>
      obtain ⟨k, d⟩ := kd
      by_cases hp : isPlain d = true
      · rw [creators, if_pos hp, if_neg (by simp), ih]
      · rw [creators, if_neg (by simpa using hp), ih]

theorem creators_true_length (ds : List (String × DSet))
    (hplain : ∀ kd ∈ ds, isPlain kd.2 = true) :
    ∀ seen : List (List Nat),
      (creators true seen ds).length
        = ((ds.map (fun kd => kd.2.shape)).toFinset \ seen.toFinset).card := by
  induction ds with
  | nil =>
      intro seen
      simp [creators]
  | cons kd rest ih =>
      intro seen
      obtain ⟨k, d⟩ := kd
      have hp : isPlain d = true := hplain (k, d) (by simp)
      have hrest : ∀ kd ∈ rest, isPlain kd.2 = true := by
        intro kd hkd
        exact hplain kd (by simp [hkd])
      by_cases hs : d.shape ∈ seen
      · rw [creators, if_pos hp, if_pos ⟨rfl, hs⟩, ih hrest seen]
        congr 1
        ext x
        simp only [List.map_cons, List.toFinset_cons, Finset.mem_sdiff,
          Finset.mem_insert, List.mem_toFinset]
        constructor
        · rintro ⟨hx, hnx⟩
          exact ⟨Or.inr hx, hnx⟩
        · rintro ⟨hx | hx, hnx⟩
          · exact absurd (by rw [hx]; exact hs) hnx
          · exact ⟨hx, hnx⟩
      · rw [creators, if_pos hp, if_neg (by rintro ⟨_, hc⟩; exact hs hc),
          List.length_cons, ih hrest (d.shape :: seen)]
        have hkey : (((k, d) :: rest).map (fun kd => kd.2.shape)).toFinset
              \ seen.toFinset
            = insert d.shape
                ((rest.map (fun kd => kd.2.shape)).toFinset
                  \ (d.shape :: seen).toFinset) := by
          ext x
          simp only [List.map_cons, List.toFinset_cons, Finset.mem_sdiff,
            Finset.mem_insert, List.mem_toFinset, List.mem_cons]
          constructor
          · rintro ⟨hx | hx, hnx⟩
            · exact Or.inl hx
            · by_cases hxd : x = d.shape
              · exact Or.inl hxd
              · exact Or.inr ⟨hx, by push_neg; exact ⟨hxd, hnx⟩⟩
          · rintro (hx | ⟨hx, hnx⟩)
            · exact ⟨Or.inl hx, by rw [hx]; exact hs⟩
            · push_neg at hnx
              exact ⟨Or.inr hx, hnx.2⟩
        rw [hkey, Finset.card_insert_of_not_mem (by simp [Finset.mem_sdiff])]

/-- With `auto_merge=false` every plain leaf creates its own record holding
exactly its one component, so the loop appends one single-component record
per leaf to the store. -/
theorem processDatasets_recs_false (lb : String) :
    ∀ (ds : List (String × DSet)) (st : ReaderState),
      (∀ kd ∈ ds, isPlain kd.2 = true) →
      (processDatasets lb false st ds).recs
        = st.recs ++ ds.map
            (fun kd => ⟨leafLabel lb kd.1, [⟨kd.1, kd.2.value, none⟩]⟩) := by
  intro ds
  induction ds with
  | nil =>
      intro st _
      simp [processDatasets]
  | cons kd rest ih =>
      intro st hplain
      obtain ⟨k, d⟩ := kd
      have hp : isPlain d = true := hplain (k, d) (by simp)
      rw [processDatasets]
      have hstep : processLeaf lb false st k d =
          { recs := addComponentAt (st.recs ++ [⟨leafLabel lb k, []⟩])
              st.recs.length ⟨k, d.value, none⟩
            data_by_shape := dictSet st.data_by_shape d.shape st.recs.length
            groups := dictSet st.groups (leafLabel lb k) st.recs.length } := by
        rw [processLeaf, if_pos hp]
        rfl
      rw [hstep, ih _ (fun kd hkd => hplain kd (by simp [hkd]))]
      rw [addComponentAt_concat]
      simp

/-- With `auto_merge=false` and only plain leaves, the reader returns one
single-component record per leaf, in traversal order. -/
theorem reader_false_records (lb : String) (ds : List (String × DSet))
    (hplain : ∀ kd ∈ ds, isPlain kd.2 = true)
    (hnodup : (ds.map Prod.fst).Nodup) :
    hdf5_reader lb false ds
      = ds.map (fun kd => ⟨leafLabel lb kd.1, [⟨kd.1, kd.2.value, none⟩]⟩) := by
  have hwf : (processDatasets lb false ⟨[], [], []⟩ ds).wf := by
    apply processDatasets_wf
    · show ([] : List (String × Nat)).map Prod.snd = List.range ([] : List Data).length
      simp
    · intro kd _
      simp
    · exact labels_nodup_of_keys_nodup lb hnodup
  show (processDatasets lb false ⟨[], [], []⟩ ds).groups.map
      (fun g => (processDatasets lb false ⟨[], [], []⟩ ds).recs.getD g.2
        dataDefault) = _
  rw [output_eq_recs hwf, processDatasets_recs_false lb ds ⟨[], [], []⟩ hplain]
  simp

/-- Every component of every record the loop builds from plain leaves either
was already in the store or carries as its label the full path `key` of one
of the processed leaves. -/
theorem processDatasets_component_labels (lb : String) (am : Bool) :
    ∀ (ds : List (String × DSet)) (st : ReaderState),
      (∀ kd ∈ ds, isPlain kd.2 = true) →
      ∀ r ∈ (processDatasets lb am st ds).recs, ∀ c ∈ r.components,
        (∃ r0 ∈ st.recs, c ∈ r0.components) ∨ c.label ∈ ds.map Prod.fst := by
  intro ds
  induction ds with
  | nil =>
      intro st _ r hr c hc
      exact Or.inl ⟨r, by simpa [processDatasets] using hr, hc⟩
  | cons kd rest ih =>
      intro st hplain r hr c hc
      obtain ⟨k, d⟩ := kd
      have hp : isPlain d = true := hplain (k, d) (by simp)
      have hrest : ∀ kd ∈ rest, isPlain kd.2 = true := by
        intro kd hkd
        exact hplain kd (by simp [hkd])
      rw [processDatasets] at hr
      rcases hm : (if am then dictGet st.data_by_shape d.shape else none)
          with _ | i
      · -- create branch
        have hstep : processLeaf lb am st k d =
            { recs := addComponentAt (st.recs ++ [⟨leafLabel lb k, []⟩])
                st.recs.length ⟨k, d.value, none⟩
              data_by_shape := dictSet st.data_by_shape d.shape st.recs.length
              groups := dictSet st.groups (leafLabel lb k) st.recs.length } := by
          rw [processLeaf, if_pos hp, hm]
        rw [hstep] at hr
        rcases ih _ hrest r hr c hc with ⟨r0, hr0, hcr0⟩ | hmem
        · rcases mem_addComponentAt _ _ _ hr0 hcr0 with ⟨r1, hr1, hcr1⟩ | hceq
          · rcases List.mem_append.mp hr1 with h1 | h1
            · exact Or.inl ⟨r1, h1, hcr1⟩
            · rw [List.mem_singleton] at h1
              subst h1
              simp at hcr1
          · right
            rw [hceq]
            simp
        · right
          simp [hmem]
      · -- merge branch
        have hstep : processLeaf lb am st k d =
            { st with recs := addComponentAt st.recs i ⟨k, d.value, none⟩ } := by
          rw [processLeaf, if_pos hp, hm]
        rw [hstep] at hr
        rcases ih _ hrest r hr c hc with ⟨r0, hr0, hcr0⟩ | hmem
        · rcases mem_addComponentAt _ _ _ hr0 hcr0 with ⟨r1, hr1, hcr1⟩ | hceq
          · exact Or.inl ⟨r1, hr1, hcr1⟩
          · right
            rw [hceq]
            simp
        · right
          simp [hmem]

/-- Scenario source: leaf `/a`, shape `[3]`, float. -/
def dsetA : DSet := ⟨DKind.float, [3], [1, 2, 3], []⟩

/-- Scenario source: leaf `/b`, shape `[3]`, integer. -/
def dsetB : DSet := ⟨DKind.integer, [3], [4, 5, 6], []⟩

/-- Scenario source with leaves `/a` (shape `[3]`, float) and `/b`
(shape `[3]`, integer). -/
def treeAB : HNode :=
  .group [("a", .dataset dsetA), ("b", .dataset dsetB)]

theorem extract_treeAB :
    extract_hdf5_datasets treeAB "" = [("/a", dsetA), ("/b", dsetB)] := by
  simp [treeAB, extract_hdf5_datasets, eligibleKind, dsetA, dsetB]

/-- Witness datasets mapping: three plain leaves with shapes `[3]`, `[3]`,
`[2]` (two distinct shapes). -/
def dsW : List (String × DSet) :=
  [("/a", ⟨DKind.float, [3], [1, 2, 3], []⟩),
   ("/b", ⟨DKind.integer, [3], [4, 5, 6], []⟩),
   ("/c", ⟨DKind.float, [2], [7, 8], []⟩)]

/-- C1: for a source whose plain leaves have shapes S1..Sn (distinct paths),
`hdf5_reader` with `auto_merge=true` produces exactly one Output Record per
distinct shape, and with `auto_merge=false` exactly n single-component
records — two leaves with identical shape never merge. -/
theorem C1_shape_grouping_counts (lb : String) (ds : List (String × DSet))
    (hplain : ∀ kd ∈ ds, isPlain kd.2 = true)
    (hnodup : (ds.map Prod.fst).Nodup) :
    (hdf5_reader lb true ds).length
        = (ds.map (fun kd => kd.2.shape)).toFinset.card
    ∧ (hdf5_reader lb false ds).length = ds.length
    ∧ ∀ r ∈ hdf5_reader lb false ds, r.components.length = 1 := by
  refine ⟨?_, ?_, ?_⟩
  · have hlen : (hdf5_reader lb true ds).length
        = (creators true [] ds).length := by
      have h := congrArg List.length (reader_labels lb true ds hnodup)
      simpa using h
    rw [hlen, creators_true_length ds hplain []]
    simp
  · rw [reader_false_records lb ds hplain hnodup]
    simp
  · intro r hr
    rw [reader_false_records lb ds hplain hnodup] at hr
    rcases List.mem_map.mp hr with ⟨kd, _, hkd⟩
    rw [← hkd]
    rfl

theorem C1_shape_grouping_counts_witness :
    (∀ kd ∈ dsW, isPlain kd.2 = true)
    ∧ (dsW.map Prod.fst).Nodup
    ∧ ((hdf5_reader "f" true dsW).length
          = (dsW.map (fun kd => kd.2.shape)).toFinset.card
        ∧ (hdf5_reader "f" false dsW).length = dsW.length
        ∧ ∀ r ∈ hdf5_reader "f" false dsW, r.components.length = 1) :=
  ⟨by decide, by decide,
    C1_shape_grouping_counts "f" dsW (by decide) (by decide)⟩

/-- C2 counterexample: for the source with leaves `/a` (shape `[3]`, float)
and `/b` (shape `[3]`, integer), `auto_merge=true` and label base `x`, the
single record's components are labeled with the full paths `/a` and `/b`,
not with the leaf names `a` and `b` the claim states. -/
theorem C2_component_label_counterexample :
    ((hdf5_reader_tree "x" true treeAB).map
        (fun r => r.components.map Component.label) = [["/a", "/b"]])
    ∧ ((hdf5_reader_tree "x" true treeAB).map
        (fun r => r.components.map Component.label) ≠ [["a", "b"]]) := by
  have h : hdf5_reader_tree "x" true treeAB
      = [⟨"x[/a]", [⟨"/a", [1, 2, 3], none⟩, ⟨"/b", [4, 5, 6], none⟩]⟩] := by
    rw [hdf5_reader_tree, extract_treeAB]
    decide
  rw [h]
  exact ⟨by decide, by decide⟩

/-- C2 amended: the component added for a plain leaf carries as its label the
leaf's full path (the mapping key), not the bare leaf name; the scenario
source yields one record labeled `x[/a]` with components `/a` and `/b`. -/
theorem C2_component_label_full_path :
    (hdf5_reader_tree "x" true treeAB
        = [⟨"x[/a]", [⟨"/a", [1, 2, 3], none⟩, ⟨"/b", [4, 5, 6], none⟩]⟩])
    ∧ ∀ (lb : String) (am : Bool) (ds : List (String × DSet)),
        (∀ kd ∈ ds, isPlain kd.2 = true) →
        ∀ r ∈ hdf5_reader lb am ds, ∀ c ∈ r.components,
          c.label ∈ ds.map Prod.fst := by
  constructor
  · rw [hdf5_reader_tree, extract_treeAB]
    decide
  · intro lb am ds hplain r hr c hc
    simp only [hdf5_reader] at hr
    rcases List.mem_map.mp hr with ⟨g, _, hr'⟩
    rcases getD_mem_or_default
        ((processDatasets lb am ⟨[], [], []⟩ ds).recs) g.2 with hmem | hdef
    · rcases processDatasets_component_labels lb am ds ⟨[], [], []⟩ hplain
          r (hr' ▸ hmem) c hc with ⟨r0, hr0, _⟩ | h
      · simp at hr0
      · exact h
    · rw [← hr', hdef] at hc
      simp [dataDefault] at hc

theorem C2_component_label_full_path_witness :
    (∀ kd ∈ [("/a", dsetA), ("/b", dsetB)], isPlain kd.2 = true)
    ∧ (⟨"/a", [1, 2, 3], none⟩ : Component).label
        ∈ ([("/a", dsetA), ("/b", dsetB)] : List (String × DSet)).map Prod.fst := by
  refine ⟨by decide, ?_⟩
  exact C2_component_label_full_path.2 "x" true [("/a", dsetA), ("/b", dsetB)]
    (by decide)
    ⟨"x[/a]", [⟨"/a", [1, 2, 3], none⟩, ⟨"/b", [4, 5, 6], none⟩]⟩
    (by decide)
    ⟨"/a", [1, 2, 3], none⟩
    (by decide)

/-- C3: records come out of `hdf5_reader` in first-creation order — the
output's label sequence is exactly the traversal-ordered sequence of the
leaves that created a record (a record keeps the position of the first leaf
that created it; later merging leaves add no entry and nothing is
re-sorted). -/
theorem C3_first_creation_order (lb : String) (am : Bool)
    (ds : List (String × DSet)) (hnodup : (ds.map Prod.fst).Nodup) :
    (hdf5_reader lb am ds).map Data.label
      = (creators am [] ds).map (fun kd => leafLabel lb kd.1) :=
  reader_labels lb am ds hnodup

theorem C3_first_creation_order_witness :
    (dsW.map Prod.fst).Nodup
    ∧ (hdf5_reader "f" true dsW).map Data.label
        = (creators true [] dsW).map (fun kd => leafLabel "f" kd.1) :=
  ⟨by decide, C3_first_creation_order "f" true dsW (by decide)⟩

/-- C7: the Leaf Collector returns exactly the eligible leaves — the
collected mapping is the kind-filtered list of all leaves at every depth,
and its path set contains a path exactly when an eligible leaf sits at that
path (groups and other-kind leaves never appear). -/
theorem C7_leaf_collector_exact (t : HNode) (pfx : String) :
    extract_hdf5_datasets t pfx
      = (allLeaves t pfx).filter (fun kd => eligibleKind kd.2.kind)
    ∧ ∀ p : String,
        (p ∈ (extract_hdf5_datasets t pfx).map Prod.fst
          ↔ ∃ d : DSet, (p, d) ∈ allLeaves t pfx ∧ eligibleKind d.kind = true) := by
  refine ⟨extract_eq_filter_allLeaves t pfx, fun p => ?_⟩
  rw [extract_eq_filter_allLeaves t pfx]
  constructor
  · intro hp
    rcases List.mem_map.mp hp with ⟨kd, hkd, hfst⟩
    obtain ⟨q, d⟩ := kd
    rw [List.mem_filter] at hkd
    cases hfst
    exact ⟨d, hkd.1, hkd.2⟩
  · rintro ⟨d, hmem, helig⟩
    exact List.mem_map.mpr
      ⟨(p, d), List.mem_filter.mpr ⟨hmem, helig⟩, rfl⟩

/-- Source whose only leaf is structured: after dropping structured leaves
no plain leaf remains. -/
def treeV : HNode :=
  .group [("s", .dataset ⟨DKind.structured, [3], [7, 8, 9],
    [("c1", [7, 8, 9], some "m")]⟩)]

/-- C4 counterexample: on a source with no plain leaf, `extract_data_hdf5`
raises an IndexError (from `list(datasets.keys())[0]`) instead of returning
the empty mapping the claim promises. -/
theorem C4_empty_plain_counterexample :
    extract_data_hdf5 treeV UseDatasets.all
        = Except.error "list index out of range"
    ∧ extract_data_hdf5 treeV UseDatasets.all
        ≠ Except.ok ([] : List (String × List Int)) := by
  have h : extract_hdf5_datasets treeV "" = [("/s",
      ⟨DKind.structured, [3], [7, 8, 9], [("c1", [7, 8, 9], some "m")]⟩)] := by
    simp [treeV, extract_hdf5_datasets, eligibleKind]
  have h1 : extract_data_hdf5 treeV UseDatasets.all
      = Except.error "list index out of range" := by
    rw [extract_data_hdf5, h]
    rfl
  exact ⟨h1, by rw [h1]; simp⟩

/-- C4 amended: whenever no plain leaf remains after dropping structured
leaves, `extract_data_hdf5` fails with an index error rather than returning
an empty mapping. -/
theorem C4_empty_plain_fails (t : HNode) (u : UseDatasets)
    (h : (extract_hdf5_datasets t "").filter
        (fun kd => !decide (kd.2.kind = DKind.structured)) = []) :
    extract_data_hdf5 t u = Except.error "list index out of range" := by
  rw [extract_data_hdf5, h]

theorem C4_empty_plain_fails_witness :
    ((extract_hdf5_datasets treeV "").filter
        (fun kd => !decide (kd.2.kind = DKind.structured)) = [])
    ∧ extract_data_hdf5 treeV UseDatasets.all
        = Except.error "list index out of range" := by
  have h : extract_hdf5_datasets treeV "" = [("/s",
      ⟨DKind.structured, [3], [7, 8, 9], [("c1", [7, 8, 9], some "m")]⟩)] := by
    simp [treeV, extract_hdf5_datasets, eligibleKind]
  refine ⟨by rw [h]; decide, ?_⟩
  exact C4_empty_plain_fails treeV UseDatasets.all (by rw [h]; decide)

/-- Source with plain leaves of mismatched shapes `[3]` and `[4]`. -/
def treeMM : HNode :=
  .group [("a", .dataset ⟨DKind.float, [3], [1, 2, 3], []⟩),
          ("b", .dataset ⟨DKind.float, [4], [4, 5, 6, 7], []⟩)]

/-- A second mismatched source with different paths and shapes
(`/c` shape `[5]`, `/d` shape `[7]`). -/
def treeMM2 : HNode :=
  .group [("c", .dataset ⟨DKind.float, [5], [1, 1, 1, 1, 1], []⟩),
          ("d", .dataset ⟨DKind.float, [7], [2, 2, 2, 2, 2, 2, 2], []⟩)]

theorem extract_treeMM :
    extract_hdf5_datasets treeMM ""
      = [("/a", ⟨DKind.float, [3], [1, 2, 3], []⟩),
         ("/b", ⟨DKind.float, [4], [4, 5, 6, 7], []⟩)] := by
  simp [treeMM, extract_hdf5_datasets, eligibleKind]

theorem extract_treeMM2 :
    extract_hdf5_datasets treeMM2 ""
      = [("/c", ⟨DKind.float, [5], [1, 1, 1, 1, 1], []⟩),
         ("/d", ⟨DKind.float, [7], [2, 2, 2, 2, 2, 2, 2], []⟩)] := by
  simp [treeMM2, extract_hdf5_datasets, eligibleKind]

/-- C5 counterexample: on mismatched shapes `[3]` and `[4]` the bulk
extraction fails, but with the fixed message
`"Datasets are not all the same dimensions"`, which contains no slash and no
digit and therefore names neither the offending path `/b` nor the expected
shape `[3]` nor the actual shape `[4]`; a source with different paths and
shapes produces the very same error value. -/
theorem C5_inconsistent_shapes_counterexample :
    extract_data_hdf5 treeMM UseDatasets.all
        = Except.error "Datasets are not all the same dimensions"
    ∧ extract_data_hdf5 treeMM2 UseDatasets.all
        = extract_data_hdf5 treeMM UseDatasets.all
    ∧ ('/' ∉ "Datasets are not all the same dimensions".data
        ∧ '3' ∉ "Datasets are not all the same dimensions".data
        ∧ '4' ∉ "Datasets are not all the same dimensions".data) := by
  have h1 : extract_data_hdf5 treeMM UseDatasets.all
      = Except.error "Datasets are not all the same dimensions" := by
    rw [extract_data_hdf5, extract_treeMM]
    rfl
  have h2 : extract_data_hdf5 treeMM2 UseDatasets.all
      = Except.error "Datasets are not all the same dimensions" := by
    rw [extract_data_hdf5, extract_treeMM2]
    rfl
  exact ⟨h1, by rw [h1, h2], by decide⟩

/-- C5 amended: whenever some remaining plain leaf's shape differs from the
reference shape (the first remaining leaf's shape), `extract_data_hdf5`
fails — but with the fixed message `"Datasets are not all the same
dimensions"`, which names neither the offending path nor the two shapes. -/
theorem C5_mismatch_fixed_error (t : HNode) (u : UseDatasets) (k0 : String)
    (d0 : DSet) (rest : List (String × DSet))
    (hfd : (extract_hdf5_datasets t "").filter
        (fun kd => !decide (kd.2.kind = DKind.structured)) = (k0, d0) :: rest)
    (hmm : ¬(((k0, d0) :: rest).all
        (fun kd => decide (kd.2.shape = d0.shape)) = true)) :
    extract_data_hdf5 t u
      = Except.error "Datasets are not all the same dimensions" := by
  rw [extract_data_hdf5, hfd]
  simp only [if_neg hmm]

theorem C5_mismatch_fixed_error_witness :
    ((extract_hdf5_datasets treeMM "").filter
        (fun kd => !decide (kd.2.kind = DKind.structured))
      = [("/a", ⟨DKind.float, [3], [1, 2, 3], []⟩),
         ("/b", ⟨DKind.float, [4], [4, 5, 6, 7], []⟩)])
    ∧ extract_data_hdf5 treeMM UseDatasets.all
        = Except.error "Datasets are not all the same dimensions" := by
  refine ⟨by rw [extract_treeMM]; decide, ?_⟩
  exact C5_mismatch_fixed_error treeMM UseDatasets.all "/a"
    ⟨DKind.float, [3], [1, 2, 3], []⟩
    [("/b", ⟨DKind.float, [4], [4, 5, 6, 7], []⟩)]
    (by rw [extract_treeMM]; decide) (by decide)

/-- C6: `use_datasets` is accepted but never read — `extract_data_hdf5`
returns the same result for every `use_datasets` value, and in particular,
restricting to `['/a']` still extracts the unlisted leaf `/b`, contradicting
the function's own docstring ("otherwise only the ones specified by
`use_datasets` are extracted"). -/
theorem C6_use_datasets_ignored :
    (∀ (t : HNode) (u v : UseDatasets),
        extract_data_hdf5 t u = extract_data_hdf5 t v)
    ∧ extract_data_hdf5 treeAB (UseDatasets.paths ["/a"])
        = Except.ok [("/a", [1, 2, 3]), ("/b", [4, 5, 6])] := by
  constructor
  · intro t u v
    rfl
  · rw [extract_data_hdf5, extract_treeAB]
    rfl

/-- Python values stored in a `VisualAttributes` record, tagged by their
runtime type: strings, ints, floats (represented by rationals, no float
arithmetic is performed), booleans, `None`, an opaque parent object whose
flag records whether it exposes a `broadcast` capability, and instances of
any other type (identified by the type's name, e.g. a numpy scalar type). -/
inductive PyVal where
  | str (s : String)
  | int (n : Int)
  | pfloat (q : Rat)
  | bool (b : Bool)
  | none_
  | parentRef (hasBroadcast : Bool)
  | pyobj (tyName : String)
deriving DecidableEq

/-- The runtime type tag of a Python value (`type(value)`). -/
inductive PyType where
  | str
  | int
  | float
  | bool
  | noneT
  | objT (tyName : String)
deriving DecidableEq

/-- The `type(value)` of a stored value.  A boolean's type is `bool`, which
is a different type object than `int` even though `bool` subclasses `int`. -/
def PyVal.typeOf : PyVal → PyType
  | .str _ => .str
  | .int _ => .int
  | .pfloat _ => .float
  | .bool _ => .bool
  | .none_ => .noneT
  | .parentRef _ => .objT "Parent"
  | .pyobj n => .objT n

/-- The comparison `value < 0` performed on a value already known to be a
float or an int. -/
def pyNeg : PyVal → Bool
  | .int n => decide (n < 0)
  | .pfloat q => decide (q < 0)
  | _ => false

/-- Acceptable line styles (visual.py line 2). -/
def VALID_LINESTYLES : List String :=
  ["solid", "dashed", "dash-dot", "dotted", "none"]

/-- Default grey color (visual.py line 4). -/
def GREY : String := "#B2B2B2"

/-- The `value not in VALID_LINESTYLES` test: a non-string value is never in
the list of style strings. -/
def linestyleOK : PyVal → Bool
  | .str s => decide (s ∈ VALID_LINESTYLES)
  | _ => false

/-- The closed attribute schema of `VisualAttributes.__setattr__`. -/
def allowedFields : List String :=
  ["color", "linewidth", "linestyle", "alpha", "parent", "marker",
   "markersize", "label"]

/-- A record state is its `__dict__`: the insertion-ordered mapping from
attribute name to stored value. -/
abbrev VDict := List (String × PyVal)

/-- The broadcast guard
`hasattr(self, 'parent') and hasattr(self.parent, 'broadcast')` evaluated on
a record state: the `parent` attribute must exist and hold an object exposing
a `broadcast` capability (`None` and plain values expose none). -/
def hasBroadcastParent (dict : VDict) : Bool :=
  match dictGet dict "parent" with
  | some (.parentRef b) => b
  | _ => false

/-- Result of one `__setattr__` call: the raised error message (if any), the
record state afterwards, and how many broadcast calls fired. -/
structure SetOutcome where
  err : Option String
  dict : VDict
  nfired : Nat
deriving DecidableEq

/-- Embedding of `VisualAttributes.__setattr__` (visual.py lines 58-82):
validate line style against the fixed list, validate line width's exact type
(`type(value) not in [float, int]`) and sign, reject attributes outside the
closed schema; only then store the value with `object.__setattr__`, and
afterwards broadcast to the parent when the (updated) record has a parent
exposing `broadcast`.  Each error branch raises before the store, so the
state is returned unchanged there and nothing is broadcast. -/
def VisualAttributes_setattr (dict : VDict) (attr : String)
    (value : PyVal) : SetOutcome :=
  if attr = "linestyle" ∧ ¬linestyleOK value = true then
    ⟨some ("Line style should be one of "
        ++ String.intercalate "/" VALID_LINESTYLES), dict, 0⟩
  else if attr = "linewidth"
      ∧ PyVal.typeOf value ∉ [PyType.float, PyType.int] then
    ⟨some "Line width should be a float or an int", dict, 0⟩
  else if attr = "linewidth" ∧ pyNeg value = true then
    ⟨some "Line width should be positive", dict, 0⟩
  else if attr ∉ allowedFields then
    ⟨some ("Attribute " ++ attr ++ " does not exist"), dict, 0⟩
  else
    let dict2 := dictSet dict attr value
    ⟨none, dict2, if hasBroadcastParent dict2 then 1 else 0⟩

/-- Sequencing of attribute writes as in straight-line Python code: once a
write raises, the rest does not run; broadcast counts accumulate. -/
def stepSet (o : SetOutcome) (a : String) (v : PyVal) : SetOutcome :=
  match o.err with
  | some _ => o
  | none =>
      let o2 := VisualAttributes_setattr o.dict a v
      ⟨o2.err, o2.dict, o.nfired + o2.nfired⟩

/-- The writes `VisualAttributes.__init__` performs before `self.parent =
parent` (visual.py lines 25-46): color, alpha, linewidth, linestyle, marker,
markersize, label, starting from an empty `__dict__`. -/
def VisualAttributes_init_defaults (color : PyVal) : SetOutcome :=
  stepSet (stepSet (stepSet (stepSet (stepSet (stepSet (stepSet
    ⟨none, [], 0⟩
    "color" color)
    "alpha" (.pfloat 1))
    "linewidth" (.int 1))
    "linestyle" (.str "solid"))
    "marker" (.str "o"))
    "markersize" (.int 40))
    "label" .none_

/-- Embedding of `VisualAttributes.__init__` (visual.py lines 25-48): the
default writes followed by the final `self.parent = parent` (the `washout`
parameter is unused by the source and omitted). -/
def VisualAttributes_init (parent : PyVal) (color : PyVal) : SetOutcome :=
  stepSet (VisualAttributes_init_defaults color) "parent" parent

theorem hasBroadcastParent_dictSet (st : VDict) {a : String} (v : PyVal)
    (h : a ≠ "parent") :
    hasBroadcastParent (dictSet st a v) = hasBroadcastParent st := by
  unfold hasBroadcastParent
  rw [dictGet_dictSet_ne st v h]

/-- C8: a failing field write raises synchronously, leaves the record state
untouched and fires no broadcast; a successful write fires a broadcast
exactly when the (updated) record has a parent exposing `broadcast` — in
particular `set_field('linestyle', 'bold')` fails with the line-style error
and changes nothing, while `set_field('linestyle', 'dotted')` on a record
with a broadcast-capable parent succeeds and fires exactly one broadcast. -/
theorem C8_setattr_atomic_broadcast (st : VDict) (a : String) (v : PyVal) :
    ((VisualAttributes_setattr st a v).err.isSome = true →
        (VisualAttributes_setattr st a v).dict = st
        ∧ (VisualAttributes_setattr st a v).nfired = 0)
    ∧ ((VisualAttributes_setattr st a v).err = none →
        (VisualAttributes_setattr st a v).nfired
          = if hasBroadcastParent (VisualAttributes_setattr st a v).dict
            then 1 else 0)
    ∧ ((VisualAttributes_setattr st "linestyle" (PyVal.str "bold")).err
          = some "Line style should be one of solid/dashed/dash-dot/dotted/none"
        ∧ (VisualAttributes_setattr st "linestyle" (PyVal.str "bold")).dict = st
        ∧ (VisualAttributes_setattr st "linestyle" (PyVal.str "bold")).nfired = 0)
    ∧ (hasBroadcastParent st = true →
        (VisualAttributes_setattr st "linestyle" (PyVal.str "dotted")).err = none
        ∧ (VisualAttributes_setattr st "linestyle" (PyVal.str "dotted")).nfired
            = 1) := by
  refine ⟨?_, ?_, ⟨rfl, rfl, rfl⟩, ?_⟩
  · unfold VisualAttributes_setattr
    split_ifs <;> simp
  · unfold VisualAttributes_setattr
    split_ifs <;> simp_all
  · intro hp
    refine ⟨rfl, ?_⟩
    show (if hasBroadcastParent (dictSet st "linestyle" (PyVal.str "dotted"))
        then 1 else 0) = 1
    rw [hasBroadcastParent_dictSet st (PyVal.str "dotted") (by decide), hp]
    rfl

theorem C8_setattr_atomic_broadcast_witness :
    ((VisualAttributes_setattr [("parent", PyVal.parentRef true)]
        "linewidth" (PyVal.bool true)).dict = [("parent", PyVal.parentRef true)]
      ∧ (VisualAttributes_setattr [("parent", PyVal.parentRef true)]
          "linewidth" (PyVal.bool true)).nfired = 0)
    ∧ ((VisualAttributes_setattr [("parent", PyVal.parentRef true)]
          "linestyle" (PyVal.str "dotted")).err = none
      ∧ (VisualAttributes_setattr [("parent", PyVal.parentRef true)]
          "linestyle" (PyVal.str "dotted")).nfired = 1) := by
  have h := C8_setattr_atomic_broadcast [("parent", PyVal.parentRef true)]
    "linewidth" (PyVal.bool true)
  exact ⟨h.1 (by decide), h.2.2.2 (by decide)⟩

/-- C9: `linewidth` accepts exactly the types float and int: a boolean
(whose Python type is `bool`, a proper subtype of `int`) and any other
numeric-subtype instance are rejected with the line-width type error, while
the boundary value `0` is accepted. -/
theorem C9_linewidth_exact_type (st : VDict) :
    ((VisualAttributes_setattr st "linewidth" (PyVal.bool true)).err
        = some "Line width should be a float or an int")
    ∧ ((VisualAttributes_setattr st "linewidth"
          (PyVal.pyobj "numpy.float64")).err
        = some "Line width should be a float or an int")
    ∧ ((VisualAttributes_setattr st "linewidth" (PyVal.int 0)).err = none)
    ∧ ∀ v : PyVal, PyVal.typeOf v ∉ [PyType.float, PyType.int] →
        (VisualAttributes_setattr st "linewidth" v).err
          = some "Line width should be a float or an int" := by
  refine ⟨rfl, rfl, rfl, ?_⟩
  intro v hv
  unfold VisualAttributes_setattr
  rw [if_neg (by simp), if_pos ⟨rfl, hv⟩]

theorem C9_linewidth_exact_type_witness :
    (PyVal.typeOf (PyVal.bool true) ∉ [PyType.float, PyType.int])
    ∧ (VisualAttributes_setattr [] "linewidth" (PyVal.bool true)).err
        = some "Line width should be a float or an int" := by
  refine ⟨by decide, ?_⟩
  exact (C9_linewidth_exact_type []).2.2.2 (PyVal.bool true) (by decide)

/-- C10: constructing a record with a broadcast-capable parent fires exactly
one broadcast, and it comes from the final `self.parent = parent`
assignment: the seven default-field writes that precede it fire none,
because no `parent` attribute exists in the record's dict until then. -/
theorem C10_init_single_broadcast (c : PyVal) :
    (VisualAttributes_init_defaults c).err = none
    ∧ (VisualAttributes_init_defaults c).nfired = 0
    ∧ (VisualAttributes_init (PyVal.parentRef true) c).err = none
    ∧ (VisualAttributes_init (PyVal.parentRef true) c).nfired = 1 :=
  ⟨rfl, rfl, rfl, rfl⟩

end Glue
